import Mathlib

/-
Shallow embedding of the sampling & compositing engine of
`video-preview-image` (src/main.go), together with theorems checking the
specification's claims against it.

Go `float64` arithmetic is modelled by exact rational arithmetic (`ℚ`);
Go `int` is modelled by `Int` (no overflow occurs in the ranges the
claims quantify over), with Go's truncating division written `Int.tdiv`.
-/

namespace VideoPreview

/-- Go's `math.Round`: round half away from zero. -/
def goRound (x : ℚ) : Int := if x < 0 then -⌊-x + 1/2⌋ else ⌊x + 1/2⌋

/-- Go's conversion `int(x)` applied to a `float64`: truncation toward zero. -/
def goTrunc (x : ℚ) : Int := if x < 0 then ⌈x⌉ else ⌊x⌋

/-- `sampleTimestamps` from src/main.go lines 195-209:
`count <= 0` gives `nil`; `count == 1` gives the midpoint; otherwise
`count` values `interval*1, …, interval*count` with
`interval = duration/(count+1)`. -/
def sampleTimestamps (duration : ℚ) (count : Int) : List ℚ :=
  if count ≤ 0 then []
  else if count = 1 then [duration / 2]
  else
    let interval := duration / ((count : ℚ) + 1)
    (List.range count.toNat).map (fun i : ℕ => interval * ((i : ℚ) + 1))

/-- The output dimensions computed by `scaleToFit` (src/main.go lines
246-269).  The resampling filter itself (x/image/draw ApproxBiLinear) is
out of scope; only the destination rectangle is modelled.  In `ℚ` the
guard `scale <= 0` also covers Go's `IsInf`/`IsNaN` cases for the
degenerate inputs excluded by the claims (`width, height > 0`). -/
def scaleToFitDims (width height maxWidth maxHeight : Int) : Int × Int :=
  let scale0 : ℚ := min ((maxWidth : ℚ) / (width : ℚ)) ((maxHeight : ℚ) / (height : ℚ))
  let scale : ℚ := if scale0 ≤ 0 then 1 else scale0
  let newWidth := goRound ((width : ℚ) * scale)
  let newHeight := goRound ((height : ℚ) * scale)
  (if newWidth ≤ 0 then 1 else newWidth, if newHeight ≤ 0 then 1 else newHeight)

/-- `inferCellHeight` from src/main.go lines 368-378.  Note the 16:9
fallback converts with Go's `int(...)`, i.e. truncation, not rounding. -/
def inferCellHeight (cellWidth videoWidth videoHeight : Int) : Int :=
  if videoWidth ≤ 0 ∨ videoHeight ≤ 0 then
    goTrunc ((cellWidth : ℚ) * 9 / 16)
  else
    let ratio : ℚ := (videoHeight : ℚ) / (videoWidth : ℚ)
    let height := goRound ((cellWidth : ℚ) * ratio)
    if height ≤ 0 then goTrunc ((cellWidth : ℚ) * 9 / 16) else height

/-- Go `color.RGBA`: one byte per channel. -/
structure RGBA where
  r : ℕ
  g : ℕ
  b : ℕ
  a : ℕ
  deriving DecidableEq, Repr

/-- Go `unicode.IsSpace` (the code points Go's `strings.TrimSpace` strips). -/
def isGoSpace (c : Char) : Bool :=
  let n := c.toNat
  n == 9 || n == 10 || n == 11 || n == 12 || n == 13 || n == 32 ||
  n == 0x85 || n == 0xA0 || n == 0x1680 ||
  (decide (0x2000 ≤ n) && decide (n ≤ 0x200A)) || n == 0x2028 || n == 0x2029 ||
  n == 0x202F || n == 0x205F || n == 0x3000

/-- Go `strings.TrimSpace`: strip white space from both ends. -/
def trimSpace (s : List Char) : List Char :=
  ((s.dropWhile isGoSpace).reverse.dropWhile isGoSpace).reverse

/-- Go `strings.TrimPrefix(s, "#")`: drop one leading `'#'` if present. -/
def dropHash : List Char → List Char
  | '#' :: rest => rest
  | s => s

/-- Value of one hexadecimal digit, case-insensitive (the digit alphabet
accepted by Go `strconv.ParseUint` with base 16). -/
def hexDigitVal (c : Char) : Option ℕ :=
  if '0' ≤ c ∧ c ≤ '9' then some (c.toNat - '0'.toNat)
  else if 'a' ≤ c ∧ c ≤ 'f' then some (c.toNat - 'a'.toNat + 10)
  else if 'A' ≤ c ∧ c ≤ 'F' then some (c.toNat - 'A'.toNat + 10)
  else none

/-- Go `strconv.ParseUint(s, 16, 8)` on a two-character slice. -/
def parseHexByte (c1 c2 : Char) : Option ℕ := do
  let d1 ← hexDigitVal c1
  let d2 ← hexDigitVal c2
  pure (16 * d1 + d2)

/-- The `switch len(hex)` body of `parseHexColor` (src/main.go lines
330-365): 6 digits give alpha 255, 8 digits carry their own alpha, any
other length is an error (`none`). -/
def parseHexDigits : List Char → Option RGBA
  | [r1, r2, g1, g2, b1, b2] => do
    let r ← parseHexByte r1 r2
    let g ← parseHexByte g1 g2
    let b ← parseHexByte b1 b2
    pure ⟨r, g, b, 255⟩
  | [r1, r2, g1, g2, b1, b2, a1, a2] => do
    let r ← parseHexByte r1 r2
    let g ← parseHexByte g1 g2
    let b ← parseHexByte b1 b2
    let a ← parseHexByte a1 a2
    pure ⟨r, g, b, a⟩
  | _ => none

/-- `parseHexColor` from src/main.go lines 328-366: trim surrounding
white space, drop an optional leading `'#'`, then parse 6 or 8 hex
digits.  (Go measures `len(hex)` in bytes while this model counts
characters; on every non-ASCII input both sides fail, so the observable
result agrees.) -/
def parseHexColor (s : String) : Option RGBA :=
  parseHexDigits (dropHash (trimSpace s.data))

/-- Stated from the spec's words, for comparison with `parseHexColor`:
"after removing an optional leading '#', the remainder is 6 or 8
case-insensitive hex digits" — note: no white-space trimming. -/
def specHexShape (s : String) : Bool :=
  let hex := dropHash s.data
  ((hex.length == 6) || (hex.length == 8)) && hex.all (fun c => (hexDigitVal c).isSome)

/-- The raw values bound by the `flag` package in `parseFlags`
(src/main.go lines 84-92) before validation. -/
structure FlagValues where
  input : String
  output : String
  rows : Int
  cols : Int
  cellWidth : Int
  cellHeight : Int
  margin : Int
  quality : Int
  background : String

/-- The validated configuration (`gridConfig`, src/main.go lines 22-32). -/
structure GridConfig where
  input : String
  output : String
  rows : Int
  cols : Int
  cellWidth : Int
  cellHeight : Int
  margin : Int
  jpegQuality : Int
  background : RGBA
  deriving DecidableEq, Repr

/-- The validation chain of `parseFlags` (src/main.go lines 96-122);
`none` models returning a config error. -/
def parseFlags (v : FlagValues) : Option GridConfig :=
  if v.input = "" then none
  else if v.rows ≤ 0 ∨ v.cols ≤ 0 then none
  else if v.cellWidth ≤ 0 then none
  else if v.margin < 0 then none
  else if v.quality < 1 ∨ v.quality > 100 then none
  else
    match parseHexColor v.background with
    | none => none
    | some c =>
      some ⟨v.input, v.output, v.rows, v.cols, v.cellWidth, v.cellHeight,
            v.margin, v.quality, c⟩

/-- One step of Go `filepath.Ext`'s scan: a separator forgets any
candidate extension, a dot starts a fresh one, any other character
extends the current candidate. -/
def extStep (st : Option (List Char)) (c : Char) : Option (List Char) :=
  if c = '/' then none
  else if c = '.' then some [c]
  else st.map (fun e => e ++ [c])

/-- Go `filepath.Ext`: the suffix beginning at the final dot in the
final slash-separated element of the path; empty when there is no dot. -/
def filepathExt (s : String) : String :=
  String.mk ((s.data.foldl extStep none).getD [])

/-- ASCII lower-casing, as Go `strings.ToLower` acts on the extensions
the switch in `saveImage` compares against. -/
def toLowerStr (s : String) : String := String.mk (s.data.map Char.toLower)

/-- `saveImage` from src/main.go lines 298-318, modelled over an
abstract set of existing files.  `os.Create` runs first, creating (or
truncating) the output file; only then is the extension examined, so the
error branch for an unsupported extension leaves the created file
behind.  The Bool is success; `ensureOutputDir` (directory creation) and
the png/jpeg encoders are out of scope. -/
def saveImage (fs : String → Bool) (path : String) : Bool × (String → Bool) :=
  let fs1 : String → Bool := fun p => if p = path then true else fs p
  let ext := toLowerStr (filepathExt path)
  if ext = ".jpg" ∨ ext = ".jpeg" then (true, fs1)
  else if ext = ".png" ∨ ext = "" then (true, fs1)
  else (false, fs1)

/-- A decoded bitmap as the compositor sees it: zero-based bounds of
size `w × h` and a pixel lookup (the frames handed to `composeGrid` come
from `scaleToFit`, whose bounds start at the origin).  The pixel type is
abstract: the concrete Go pixel model (`color.Color`) lives in the
standard library, outside this repository. -/
structure Frame (α : Type) where
  w : Int
  h : Int
  pix : Int → Int → α

/-- The mutable canvas built by `composeGrid`. -/
structure Canvas (α : Type) where
  width : Int
  height : Int
  pix : Int → Int → α

/-- `draw.Draw(canvas, Rect(x0, y0, x0+f.w, y0+f.h), f, f.Bounds().Min,
draw.Over)`: inside the rectangle (clipped to the canvas bounds) the new
pixel blends the source over the old one via the abstract `over`;
everywhere else the canvas is unchanged. -/
def drawOver {α : Type} (over : α → α → α) (c : Canvas α) (x0 y0 : Int)
    (f : Frame α) : Canvas α :=
  { c with pix := fun x y =>
      if x0 ≤ x ∧ x < x0 + f.w ∧ y0 ≤ y ∧ y < y0 + f.h ∧
         0 ≤ x ∧ x < c.width ∧ 0 ≤ y ∧ y < c.height then
        over (f.pix (x - x0) (y - y0)) (c.pix x y)
      else c.pix x y }

/-- The x coordinate at which the frame at linear index `i` of width
`fw` is placed (src/main.go lines 283-289): `cellX + (cellWidth - fw)/2`
with `cellX = margin + col*(cellWidth + margin)` and `col = i % cols`,
using Go's truncating `%` and `/`. -/
def frameOffsetX (cols cellWidth margin : Int) (i : ℕ) (fw : Int) : Int :=
  margin + Int.tmod (i : Int) cols * (cellWidth + margin) +
    Int.tdiv (cellWidth - fw) 2

/-- The y coordinate at which the frame at linear index `i` of height
`fh` is placed (src/main.go lines 282-290): `cellY + (cellHeight - fh)/2`
with `cellY = margin + row*(cellHeight + margin)` and `row = i / cols`. -/
def frameOffsetY (cols cellHeight margin : Int) (i : ℕ) (fh : Int) : Int :=
  margin + Int.tdiv (i : Int) cols * (cellHeight + margin) +
    Int.tdiv (cellHeight - fh) 2

/-- Placing one indexed frame, the loop body of `composeGrid`
(src/main.go lines 278-293); a `nil` frame is skipped. -/
def placeFrame {α : Type} (over : α → α → α)
    (cols cellWidth cellHeight margin : Int)
    (canvas : Canvas α) (p : ℕ × Option (Frame α)) : Canvas α :=
  match p.2 with
  | none => canvas
  | some frame =>
    drawOver over canvas (frameOffsetX cols cellWidth margin p.1 frame.w)
      (frameOffsetY cols cellHeight margin p.1 frame.h) frame

/-- The destination rectangle filled when the frame at linear index `i`
is drawn (the rectangle passed to `draw.Draw` in src/main.go line 292)
contains the pixel `(x, y)`. -/
abbrev coversPixel {α : Type} (cols cellWidth cellHeight margin : Int)
    (i : ℕ) (f : Frame α) (x y : Int) : Prop :=
  frameOffsetX cols cellWidth margin i f.w ≤ x ∧
  x < frameOffsetX cols cellWidth margin i f.w + f.w ∧
  frameOffsetY cols cellHeight margin i f.h ≤ y ∧
  y < frameOffsetY cols cellHeight margin i f.h + f.h

/-- `composeGrid` from src/main.go lines 271-296: size the canvas, fill
it with the background (`draw.Src` over the whole bounds), then place
each frame in index order. -/
def composeGrid {α : Type} (over : α → α → α)
    (frames : List (Option (Frame α)))
    (rows cols cellWidth cellHeight margin : Int) (background : α) :
    Canvas α :=
  let totalWidth := cols * cellWidth + (cols + 1) * margin
  let totalHeight := rows * cellHeight + (rows + 1) * margin
  let base : Canvas α := ⟨totalWidth, totalHeight, fun _ _ => background⟩
  frames.enum.foldl (placeFrame over cols cellWidth cellHeight margin) base

/- Concrete sanity checks of the embedded definitions. -/

example : sampleTimestamps 10 1 = [5] := by norm_num [sampleTimestamps]
example : sampleTimestamps 10 9 = [1, 2, 3, 4, 5, 6, 7, 8, 9] := by
  norm_num [sampleTimestamps]
  simp only [show Int.toNat 9 = 9 from rfl, List.range_succ, List.range_zero]
  norm_num
example : scaleToFitDims 640 360 100 56 = (100, 56) := by
  norm_num [scaleToFitDims, goRound]
example : scaleToFitDims 1920 1080 320 180 = (320, 180) := by
  norm_num [scaleToFitDims, goRound]
example : inferCellHeight 320 1920 1080 = 180 := by
  norm_num [inferCellHeight, goRound, goTrunc]
example : inferCellHeight 320 0 0 = 180 := by
  norm_num [inferCellHeight, goRound, goTrunc]
example : inferCellHeight 1 0 0 = 0 := by
  norm_num [inferCellHeight, goRound, goTrunc]
example : goRound ((1 : ℚ) * 9 / 16) = 1 := by norm_num [goRound]

example : parseHexColor "#FF0000" = some ⟨255, 0, 0, 255⟩ := by decide
example : parseHexColor "#00FF0080" = some ⟨0, 255, 0, 128⟩ := by decide
example : parseHexColor "GGHHII" = none := by decide
example : parseHexColor "#FF0000 " = some ⟨255, 0, 0, 255⟩ := by decide
example : specHexShape "#FF0000 " = false := by decide
example : filepathExt "out.bmp" = ".bmp" := by decide
example : filepathExt "dir.d/noext" = "" := by decide
example : (saveImage (fun _ => false) "out.bmp").1 = false := by decide
example : (saveImage (fun _ => false) "out.bmp").2 "out.bmp" = true := by decide

/- ## Claims about `inferCellHeight` (C4, C10) -/

/-- C4 counterexample: at `cellWidth = 1` with degenerate source
dimensions the code returns `0` (truncation of `9/16`), while the
claim's fallback `round(1 * 9/16)` would be `1`. -/
theorem inferCellHeight_fallback_not_round :
    inferCellHeight 1 0 0 = 0 ∧ goRound ((1 : ℚ) * 9 / 16) = 1 := by
  constructor
  · norm_num [inferCellHeight, goTrunc]
  · norm_num [goRound]

/-- C4 (amended): for every `cellWidth > 0`, `inferCellHeight` returns
`round(cellWidth * videoHeight / videoWidth)` when `videoWidth > 0`,
`videoHeight > 0` and that rounded value is positive; in every other
case it returns the 16:9 fallback computed by truncation,
`trunc(cellWidth * 9/16)` (not by rounding as the claim stated). -/
theorem inferCellHeight_characterization (cellWidth videoWidth videoHeight : Int)
    (hcw : 0 < cellWidth) :
    (videoWidth ≤ 0 ∨ videoHeight ≤ 0 →
      inferCellHeight cellWidth videoWidth videoHeight =
        goTrunc ((cellWidth : ℚ) * 9 / 16)) ∧
    (0 < videoWidth → 0 < videoHeight →
      (0 < goRound ((cellWidth : ℚ) * ((videoHeight : ℚ) / (videoWidth : ℚ))) →
        inferCellHeight cellWidth videoWidth videoHeight =
          goRound ((cellWidth : ℚ) * ((videoHeight : ℚ) / (videoWidth : ℚ)))) ∧
      (goRound ((cellWidth : ℚ) * ((videoHeight : ℚ) / (videoWidth : ℚ))) ≤ 0 →
        inferCellHeight cellWidth videoWidth videoHeight =
          goTrunc ((cellWidth : ℚ) * 9 / 16))) := by
  refine ⟨fun hdeg => ?_, fun hw hh => ⟨fun hpos => ?_, fun hnp => ?_⟩⟩
  · rw [inferCellHeight, if_pos hdeg]
  · rw [inferCellHeight, if_neg (by omega)]
    simp only []
    rw [if_neg (by omega)]
  · rw [inferCellHeight, if_neg (by omega)]
    simp only []
    rw [if_pos hnp]

/-- C4 witness: the theorem applied at `cellWidth = 320`, source
`1920 × 1080`. -/
theorem inferCellHeight_characterization_witness :
    0 < (320 : Int) ∧
    (((1920 : Int) ≤ 0 ∨ (1080 : Int) ≤ 0 →
       inferCellHeight 320 1920 1080 = goTrunc ((320 : ℚ) * 9 / 16)) ∧
     (0 < (1920 : Int) → 0 < (1080 : Int) →
       (0 < goRound ((320 : ℚ) * (((1080 : Int) : ℚ) / ((1920 : Int) : ℚ))) →
         inferCellHeight 320 1920 1080 =
           goRound ((320 : ℚ) * (((1080 : Int) : ℚ) / ((1920 : Int) : ℚ)))) ∧
       (goRound ((320 : ℚ) * (((1080 : Int) : ℚ) / ((1920 : Int) : ℚ))) ≤ 0 →
         inferCellHeight 320 1920 1080 = goTrunc ((320 : ℚ) * 9 / 16)))) :=
  ⟨by norm_num, inferCellHeight_characterization 320 1920 1080 (by norm_num)⟩

/-- C10: the inferred cell height is not guaranteed positive: for the
positive cell width `1` with non-positive source dimensions the 16:9
fallback truncates `9/16` down to `0`. -/
theorem inferCellHeight_can_return_zero :
    ∃ cellWidth : Int, 0 < cellWidth ∧ inferCellHeight cellWidth 0 0 = 0 := by
  refine ⟨1, by norm_num, ?_⟩
  norm_num [inferCellHeight, goTrunc]

/- ## Claim about `parseFlags` (C8) -/

/-- C8: contrary to the claim, the validation chain of `parseFlags`
never examines `cellHeight`; a configuration with `cellHeight = -1` (all
other flags valid) is accepted rather than rejected. -/
theorem parseFlags_accepts_negative_cellHeight :
    parseFlags ⟨"in.mp4", "preview.png", 3, 3, 320, -1, 8, 90, "#FFFFFF"⟩ =
      some ⟨"in.mp4", "preview.png", 3, 3, 320, -1, 8, 90, ⟨255, 255, 255, 255⟩⟩ := by
  decide

/- ## Claims about `saveImage` (C9) -/

/-- C9 counterexample: saving to `"out.bmp"` (unsupported extension)
fails, but the file-system state is changed on this failure: the output
file did not exist before and exists afterwards, because `os.Create`
runs before the extension switch. -/
theorem saveImage_error_creates_file :
    (saveImage (fun _ => false) "out.bmp").1 = false ∧
    (saveImage (fun _ => false) "out.bmp").2 "out.bmp" = true ∧
    (fun _ : String => false) "out.bmp" = false :=
  ⟨by decide, by decide, rfl⟩

/-- C9 (amended): for every output path whose lower-cased extension is
not `.png`, `.jpg`, `.jpeg` or empty, `saveImage` fails — but the output
file has already been created (and truncated to empty) by `os.Create`
before the extension is examined, so on such a failure the file system
gains the output file instead of being left unchanged. -/
theorem saveImage_bad_extension (fs : String → Bool) (path : String)
    (hext : ¬ (toLowerStr (filepathExt path) = ".png" ∨
               toLowerStr (filepathExt path) = ".jpg" ∨
               toLowerStr (filepathExt path) = ".jpeg" ∨
               toLowerStr (filepathExt path) = "")) :
    saveImage fs path = (false, fun p => if p = path then true else fs p) := by
  have h1 : ¬ (toLowerStr (filepathExt path) = ".jpg" ∨
               toLowerStr (filepathExt path) = ".jpeg") := by tauto
  have h2 : ¬ (toLowerStr (filepathExt path) = ".png" ∨
               toLowerStr (filepathExt path) = "") := by tauto
  simp only [saveImage, if_neg h1, if_neg h2]

/-- C9 witness: the amended theorem applied to `"out.bmp"` over an empty
file system. -/
theorem saveImage_bad_extension_witness :
    (¬ (toLowerStr (filepathExt "out.bmp") = ".png" ∨
        toLowerStr (filepathExt "out.bmp") = ".jpg" ∨
        toLowerStr (filepathExt "out.bmp") = ".jpeg" ∨
        toLowerStr (filepathExt "out.bmp") = "")) ∧
    saveImage (fun _ => false) "out.bmp" =
      (false, fun p => if p = "out.bmp" then true else false) :=
  ⟨by decide, saveImage_bad_extension (fun _ => false) "out.bmp" (by decide)⟩

/- ## Claims about `parseHexColor` (C6) -/

theorem parseHexByte_isSome (c1 c2 : Char) :
    (parseHexByte c1 c2).isSome =
      ((hexDigitVal c1).isSome && (hexDigitVal c2).isSome) := by
  cases h1 : hexDigitVal c1 <;> cases h2 : hexDigitVal c2 <;>
    simp [parseHexByte, h1, h2]

theorem isSome_bind_const {α β : Type} (o : Option α) (f : α → Option β)
    (b : Bool) (h : ∀ a, (f a).isSome = b) :
    (o >>= f).isSome = (o.isSome && b) := by
  cases o with
  | none => simp
  | some a => simpa using h a

theorem parseHexDigits_isSome (l : List Char) :
    (parseHexDigits l).isSome =
      (((l.length == 6) || (l.length == 8)) &&
        l.all (fun c => (hexDigitVal c).isSome)) := by
  rcases l with _ | ⟨c1, _ | ⟨c2, _ | ⟨c3, _ | ⟨c4, _ | ⟨c5, _ | ⟨c6, _ | ⟨c7, _ |
    ⟨c8, _ | ⟨c9, t⟩⟩⟩⟩⟩⟩⟩⟩⟩
  · rfl
  · rfl
  · rfl
  · rfl
  · rfl
  · rfl
  · -- six characters
    have e1 : (parseHexDigits [c1, c2, c3, c4, c5, c6]).isSome =
        ((parseHexByte c1 c2).isSome && ((parseHexByte c3 c4).isSome &&
          ((parseHexByte c5 c6).isSome && true))) := by
      simp only [parseHexDigits]
      refine isSome_bind_const _ _ _ (fun r => ?_)
      refine isSome_bind_const _ _ _ (fun g => ?_)
      exact isSome_bind_const _ _ _ (fun b => rfl)
    rw [e1, parseHexByte_isSome, parseHexByte_isSome, parseHexByte_isSome]
    simp [Bool.and_assoc]
  · rfl
  · -- eight characters
    have e1 : (parseHexDigits [c1, c2, c3, c4, c5, c6, c7, c8]).isSome =
        ((parseHexByte c1 c2).isSome && ((parseHexByte c3 c4).isSome &&
          ((parseHexByte c5 c6).isSome && ((parseHexByte c7 c8).isSome && true)))) := by
      simp only [parseHexDigits]
      refine isSome_bind_const _ _ _ (fun r => ?_)
      refine isSome_bind_const _ _ _ (fun g => ?_)
      refine isSome_bind_const _ _ _ (fun b => ?_)
      exact isSome_bind_const _ _ _ (fun a => rfl)
    rw [e1, parseHexByte_isSome, parseHexByte_isSome, parseHexByte_isSome,
      parseHexByte_isSome]
    simp [Bool.and_assoc]
  · -- nine or more characters
    have h6 : ((c1 :: c2 :: c3 :: c4 :: c5 :: c6 :: c7 :: c8 :: c9 :: t).length == 6)
        = false := by
      rw [beq_eq_false_iff_ne]
      simp only [List.length_cons]
      omega
    have h8 : ((c1 :: c2 :: c3 :: c4 :: c5 :: c6 :: c7 :: c8 :: c9 :: t).length == 8)
        = false := by
      rw [beq_eq_false_iff_ne]
      simp only [List.length_cons]
      omega
    show (none : Option RGBA).isSome = _
    simp [h6, h8]

/-- C6 counterexample: the input `"#FF0000 "` (trailing blank) is parsed
successfully by the code, yet after removing an optional leading `'#'`
its remainder is not 6 or 8 hex digits — so "succeeds exactly when" as
claimed is false; the parser first trims surrounding white space. -/
theorem parseHexColor_succeeds_without_claimed_shape :
    (parseHexColor "#FF0000 ").isSome = true ∧ specHexShape "#FF0000 " = false := by
  constructor <;> decide

/-- C6 (amended): `parseHexColor` succeeds exactly when, after trimming
surrounding white space and then removing an optional leading `'#'`, the
remainder is 6 or 8 case-insensitive hex digits (the claim omitted the
trimming); with 6 digits the alpha defaults to 255, and the claim's
concrete examples hold: `"#FF0000"` gives RGBA(255,0,0,255),
`"#00FF0080"` gives RGBA(0,255,0,128), `"GGHHII"` is an error. -/
theorem parseHexColor_characterization :
    (∀ s : String,
      (parseHexColor s).isSome = specHexShape (String.mk (trimSpace s.data))) ∧
    parseHexColor "#FF0000" = some ⟨255, 0, 0, 255⟩ ∧
    parseHexColor "#00FF0080" = some ⟨0, 255, 0, 128⟩ ∧
    parseHexColor "GGHHII" = none ∧
    (∀ (s : String) (col : RGBA),
      (dropHash (trimSpace s.data)).length = 6 →
      parseHexColor s = some col → col.a = 255) := by
  refine ⟨fun s => ?_, by decide, by decide, by decide, fun s col hlen hp => ?_⟩
  · rw [parseHexColor, parseHexDigits_isSome]
    rfl
  · rw [parseHexColor] at hp
    revert hlen hp
    generalize dropHash (trimSpace s.data) = l
    intro hlen hp
    rcases l with _ | ⟨a, _ | ⟨b, _ | ⟨c, _ | ⟨d, _ | ⟨e, _ | ⟨f, _ | ⟨g, t⟩⟩⟩⟩⟩⟩⟩ <;>
      simp only [List.length_cons, List.length_nil] at hlen <;> try omega
    rcases h1 : parseHexByte a b with _ | r
    · rw [parseHexDigits, h1] at hp
      exact absurd hp (by simp)
    rcases h2 : parseHexByte c d with _ | g2
    · rw [parseHexDigits, h1, h2] at hp
      exact absurd hp (by simp)
    rcases h3 : parseHexByte e f with _ | b2
    · rw [parseHexDigits, h1, h2, h3] at hp
      exact absurd hp (by simp)
    rw [parseHexDigits, h1, h2, h3] at hp
    have hcol : (⟨r, g2, b2, 255⟩ : RGBA) = col := by simpa using hp
    rw [← hcol]

/-- C6 witness: the amended characterization applied to concrete
inputs. -/
theorem parseHexColor_characterization_witness :
    ((parseHexColor " #A1B2C3\t").isSome =
      specHexShape (String.mk (trimSpace " #A1B2C3\t".data))) ∧
    ((dropHash (trimSpace "#AABBCC".data)).length = 6 ∧
      parseHexColor "#AABBCC" = some ⟨0xAA, 0xBB, 0xCC, 255⟩ ∧
      (⟨0xAA, 0xBB, 0xCC, 255⟩ : RGBA).a = 255) :=
  ⟨parseHexColor_characterization.1 " #A1B2C3\t",
   by decide, by decide,
   parseHexColor_characterization.2.2.2.2 "#AABBCC" ⟨0xAA, 0xBB, 0xCC, 255⟩
     (by decide) (by decide)⟩

/- ## Claims about `sampleTimestamps` (C1, C5) -/

theorem sampleTimestamps_eq_map (duration : ℚ) (count : Int) (hc : 2 ≤ count) :
    sampleTimestamps duration count =
      (List.range count.toNat).map
        (fun i : ℕ => duration / ((count : ℚ) + 1) * ((i : ℚ) + 1)) := by
  rw [sampleTimestamps, if_neg (by omega), if_neg (by omega)]

theorem sampleTimestamps_getElem (duration : ℚ) (count : Int) (hc : 2 ≤ count)
    (k : ℕ) (hk : k < (sampleTimestamps duration count).length) :
    (sampleTimestamps duration count)[k] =
      duration / ((count : ℚ) + 1) * ((k : ℚ) + 1) := by
  have h0 := sampleTimestamps_eq_map duration count hc
  simp only [h0]
  rw [List.getElem_map, List.getElem_range]

/-- C1: for every duration > 0 and integer count ≥ 1, `sampleTimestamps`
returns exactly `[duration/2]` when count = 1, and otherwise the
sequence of count values `interval*1, …, interval*count` with
`interval = duration/(count+1)` (the value at 0-based position k is
`interval*(k+1)`). -/
theorem sampleTimestamps_algorithm (duration : ℚ) (count : Int)
    (hd : 0 < duration) (hc : 1 ≤ count) :
    (count = 1 → sampleTimestamps duration count = [duration / 2]) ∧
    (2 ≤ count →
      (sampleTimestamps duration count).length = count.toNat ∧
      ∀ (k : ℕ) (hk : k < (sampleTimestamps duration count).length),
        (sampleTimestamps duration count)[k] =
          duration / ((count : ℚ) + 1) * ((k : ℚ) + 1)) := by
  refine ⟨fun h1 => ?_, fun h2 =>
    ⟨?_, fun k hk => sampleTimestamps_getElem duration count h2 k hk⟩⟩
  · rw [sampleTimestamps, if_neg (by omega), if_pos h1]
  · rw [sampleTimestamps_eq_map duration count h2]
    simp

/-- C1 witness: the theorem applied at duration 10 and count 9. -/
theorem sampleTimestamps_algorithm_witness :
    (0 : ℚ) < 10 ∧ (1 : Int) ≤ 9 ∧
    (((9 : Int) = 1 → sampleTimestamps 10 9 = [10 / 2]) ∧
     (2 ≤ (9 : Int) →
       (sampleTimestamps 10 9).length = (9 : Int).toNat ∧
       ∀ (k : ℕ) (hk : k < (sampleTimestamps 10 9).length),
         (sampleTimestamps 10 9)[k] =
           10 / (((9 : Int) : ℚ) + 1) * ((k : ℚ) + 1))) :=
  ⟨by norm_num, by norm_num,
   sampleTimestamps_algorithm 10 9 (by norm_num) (by norm_num)⟩

/-- C5: for every duration > 0 and count ≥ 2 the returned sequence has
exactly count elements, is strictly increasing, every element lies
strictly between 0 and duration, and each adjacent difference equals
`duration/(count+1)` exactly. -/
theorem sampleTimestamps_spacing (duration : ℚ) (count : Int)
    (hd : 0 < duration) (hc : 2 ≤ count) :
    (sampleTimestamps duration count).length = count.toNat ∧
    (∀ (j k : ℕ) (hj : j < (sampleTimestamps duration count).length)
        (hk : k < (sampleTimestamps duration count).length), j < k →
      (sampleTimestamps duration count)[j] < (sampleTimestamps duration count)[k]) ∧
    (∀ (k : ℕ) (hk : k < (sampleTimestamps duration count).length),
      0 < (sampleTimestamps duration count)[k] ∧
      (sampleTimestamps duration count)[k] < duration) ∧
    (∀ (k : ℕ) (hk1 : k + 1 < (sampleTimestamps duration count).length)
        (hk : k < (sampleTimestamps duration count).length),
      (sampleTimestamps duration count)[k + 1] - (sampleTimestamps duration count)[k] =
        duration / ((count : ℚ) + 1)) := by
  have hcq : (2 : ℚ) ≤ (count : ℚ) := by exact_mod_cast hc
  have hden : (0 : ℚ) < (count : ℚ) + 1 := by linarith
  have hI : 0 < duration / ((count : ℚ) + 1) := div_pos hd hden
  have hlen : (sampleTimestamps duration count).length = count.toNat := by
    rw [sampleTimestamps_eq_map duration count hc]; simp
  refine ⟨hlen, fun j k hj hk hjk => ?_, fun k hk => ⟨?_, ?_⟩, fun k hk1 hk => ?_⟩
  · rw [sampleTimestamps_getElem duration count hc j hj,
      sampleTimestamps_getElem duration count hc k hk]
    have hjkq : ((j : ℚ) + 1) < ((k : ℚ) + 1) := by
      have : (j : ℚ) < (k : ℚ) := by exact_mod_cast hjk
      linarith
    exact mul_lt_mul_of_pos_left hjkq hI
  · rw [sampleTimestamps_getElem duration count hc k hk]
    exact mul_pos hI (by positivity)
  · rw [sampleTimestamps_getElem duration count hc k hk]
    have hkc : (k : ℚ) + 1 ≤ (count : ℚ) := by
      rw [hlen] at hk
      have h2 : ((k : ℤ)) + 1 ≤ count := by omega
      exact_mod_cast h2
    calc duration / ((count : ℚ) + 1) * ((k : ℚ) + 1)
        ≤ duration / ((count : ℚ) + 1) * (count : ℚ) :=
          mul_le_mul_of_nonneg_left hkc (le_of_lt hI)
      _ < duration / ((count : ℚ) + 1) * ((count : ℚ) + 1) :=
          mul_lt_mul_of_pos_left (by linarith) hI
      _ = duration := div_mul_cancel₀ duration (ne_of_gt hden)
  · rw [sampleTimestamps_getElem duration count hc (k + 1) hk1,
      sampleTimestamps_getElem duration count hc k hk]
    push_cast
    ring

/-- C5 witness: the theorem applied at duration 10 and count 9. -/
theorem sampleTimestamps_spacing_witness :
    (0 : ℚ) < 10 ∧ (2 : Int) ≤ 9 ∧
    ((sampleTimestamps 10 9).length = (9 : Int).toNat ∧
     (∀ (j k : ℕ) (hj : j < (sampleTimestamps 10 9).length)
         (hk : k < (sampleTimestamps 10 9).length), j < k →
       (sampleTimestamps 10 9)[j] < (sampleTimestamps 10 9)[k]) ∧
     (∀ (k : ℕ) (hk : k < (sampleTimestamps 10 9).length),
       0 < (sampleTimestamps 10 9)[k] ∧ (sampleTimestamps 10 9)[k] < 10) ∧
     (∀ (k : ℕ) (hk1 : k + 1 < (sampleTimestamps 10 9).length)
         (hk : k < (sampleTimestamps 10 9).length),
       (sampleTimestamps 10 9)[k + 1] - (sampleTimestamps 10 9)[k] =
         10 / (((9 : Int) : ℚ) + 1))) :=
  ⟨by norm_num, by norm_num,
   sampleTimestamps_spacing 10 9 (by norm_num) (by norm_num)⟩

/- ## Claims about `scaleToFit` dimensions (C3, C7) -/

theorem floor_half_rat : ⌊(1 : ℚ) / 2⌋ = 0 := by
  rw [Int.floor_eq_iff] <;> norm_num

theorem goRound_intCast (m : Int) : goRound (m : ℚ) = m := by
  rw [goRound]
  split
  · have h1 : -((m : ℚ)) + 1 / 2 = ((-m : ℤ) : ℚ) + (1 : ℚ) / 2 := by push_cast; ring
    rw [h1, Int.floor_int_add, floor_half_rat]
    omega
  · have h1 : (m : ℚ) + 1 / 2 = ((m : ℤ) : ℚ) + (1 : ℚ) / 2 := by push_cast; ring
    rw [h1, Int.floor_int_add, floor_half_rat]
    omega

theorem goRound_le_intCast (x : ℚ) (m : Int) (hx : 0 ≤ x) (hxm : x ≤ (m : ℚ)) :
    goRound x ≤ m := by
  rw [goRound, if_neg (not_lt.mpr hx)]
  have h1 : ⌊x + 1 / 2⌋ ≤ ⌊(m : ℚ) + 1 / 2⌋ := Int.floor_le_floor (by linarith)
  have h2 : ⌊(m : ℚ) + 1 / 2⌋ = m := by
    have h3 : (m : ℚ) + 1 / 2 = ((m : ℤ) : ℚ) + (1 : ℚ) / 2 := by push_cast; ring
    rw [h3, Int.floor_int_add, floor_half_rat]
    omega
  omega

theorem scaleToFitDims_fst_eq (w h maxW maxH : Int)
    (hw : 0 < w) (hh : 0 < h) (hmw : 0 < maxW) (hmh : 0 < maxH) :
    (scaleToFitDims w h maxW maxH).1 =
      if goRound ((w : ℚ) * min ((maxW : ℚ) / (w : ℚ)) ((maxH : ℚ) / (h : ℚ))) ≤ 0
      then 1
      else goRound ((w : ℚ) * min ((maxW : ℚ) / (w : ℚ)) ((maxH : ℚ) / (h : ℚ))) := by
  have hscpos : 0 < min ((maxW : ℚ) / (w : ℚ)) ((maxH : ℚ) / (h : ℚ)) :=
    lt_min (div_pos (by exact_mod_cast hmw) (by exact_mod_cast hw))
      (div_pos (by exact_mod_cast hmh) (by exact_mod_cast hh))
  simp only [scaleToFitDims]
  rw [if_neg (not_le.mpr hscpos)]

theorem scaleToFitDims_snd_eq (w h maxW maxH : Int)
    (hw : 0 < w) (hh : 0 < h) (hmw : 0 < maxW) (hmh : 0 < maxH) :
    (scaleToFitDims w h maxW maxH).2 =
      if goRound ((h : ℚ) * min ((maxW : ℚ) / (w : ℚ)) ((maxH : ℚ) / (h : ℚ))) ≤ 0
      then 1
      else goRound ((h : ℚ) * min ((maxW : ℚ) / (w : ℚ)) ((maxH : ℚ) / (h : ℚ))) := by
  have hscpos : 0 < min ((maxW : ℚ) / (w : ℚ)) ((maxH : ℚ) / (h : ℚ)) :=
    lt_min (div_pos (by exact_mod_cast hmw) (by exact_mod_cast hw))
      (div_pos (by exact_mod_cast hmh) (by exact_mod_cast hh))
  simp only [scaleToFitDims]
  rw [if_neg (not_le.mpr hscpos)]

/-- C3: for every non-degenerate bitmap and positive target box,
`scaleToFit` produces the dimensions `round(w*scale)` by
`round(h*scale)` with `scale = min(maxW/w, maxH/h)`, each dimension
floored at 1 pixel, and the output never exceeds the box on either
axis. -/
theorem scaleToFitDims_correct (w h maxW maxH : Int)
    (hw : 0 < w) (hh : 0 < h) (hmw : 0 < maxW) (hmh : 0 < maxH) :
    scaleToFitDims w h maxW maxH =
      (max 1 (goRound ((w : ℚ) * min ((maxW : ℚ) / (w : ℚ)) ((maxH : ℚ) / (h : ℚ)))),
       max 1 (goRound ((h : ℚ) * min ((maxW : ℚ) / (w : ℚ)) ((maxH : ℚ) / (h : ℚ))))) ∧
    (scaleToFitDims w h maxW maxH).1 ≤ maxW ∧
    (scaleToFitDims w h maxW maxH).2 ≤ maxH := by
  have hwq : (0 : ℚ) < (w : ℚ) := by exact_mod_cast hw
  have hhq : (0 : ℚ) < (h : ℚ) := by exact_mod_cast hh
  have hscpos : 0 < min ((maxW : ℚ) / (w : ℚ)) ((maxH : ℚ) / (h : ℚ)) :=
    lt_min (div_pos (by exact_mod_cast hmw) hwq)
      (div_pos (by exact_mod_cast hmh) hhq)
  have hfst := scaleToFitDims_fst_eq w h maxW maxH hw hh hmw hmh
  have hsnd := scaleToFitDims_snd_eq w h maxW maxH hw hh hmw hmh
  have hWbound : goRound ((w : ℚ) * min ((maxW : ℚ) / (w : ℚ)) ((maxH : ℚ) / (h : ℚ)))
      ≤ maxW := by
    apply goRound_le_intCast
    · exact le_of_lt (mul_pos hwq hscpos)
    · have h1 : (w : ℚ) * min ((maxW : ℚ) / (w : ℚ)) ((maxH : ℚ) / (h : ℚ))
          ≤ (w : ℚ) * ((maxW : ℚ) / (w : ℚ)) :=
        mul_le_mul_of_nonneg_left (min_le_left _ _) (le_of_lt hwq)
      have h2 : (w : ℚ) * ((maxW : ℚ) / (w : ℚ)) = (maxW : ℚ) := by
        field_simp
      linarith
  have hHbound : goRound ((h : ℚ) * min ((maxW : ℚ) / (w : ℚ)) ((maxH : ℚ) / (h : ℚ)))
      ≤ maxH := by
    apply goRound_le_intCast
    · exact le_of_lt (mul_pos hhq hscpos)
    · have h1 : (h : ℚ) * min ((maxW : ℚ) / (w : ℚ)) ((maxH : ℚ) / (h : ℚ))
          ≤ (h : ℚ) * ((maxH : ℚ) / (h : ℚ)) :=
        mul_le_mul_of_nonneg_left (min_le_right _ _) (le_of_lt hhq)
      have h2 : (h : ℚ) * ((maxH : ℚ) / (h : ℚ)) = (maxH : ℚ) := by
        field_simp
      linarith
  refine ⟨?_, ?_, ?_⟩
  · have hp : scaleToFitDims w h maxW maxH =
        ((scaleToFitDims w h maxW maxH).1, (scaleToFitDims w h maxW maxH).2) := rfl
    rw [hp, hfst, hsnd]
    simp only [Prod.mk.injEq]
    constructor
    · split <;> omega
    · split <;> omega
  · rw [hfst]
    split <;> omega
  · rw [hsnd]
    split <;> omega

/-- C3 witness: the theorem applied to a 640×360 frame and a 100×56
box. -/
theorem scaleToFitDims_correct_witness :
    (0 : Int) < 640 ∧ (0 : Int) < 360 ∧ (0 : Int) < 100 ∧ (0 : Int) < 56 ∧
    (scaleToFitDims 640 360 100 56 =
      (max 1 (goRound ((640 : ℚ) * min ((100 : ℚ) / ((640 : Int) : ℚ))
        ((56 : ℚ) / ((360 : Int) : ℚ)))),
       max 1 (goRound ((360 : ℚ) * min ((100 : ℚ) / ((640 : Int) : ℚ))
        ((56 : ℚ) / ((360 : Int) : ℚ))))) ∧
     (scaleToFitDims 640 360 100 56).1 ≤ 100 ∧
     (scaleToFitDims 640 360 100 56).2 ≤ 56) := by
  refine ⟨by norm_num, by norm_num, by norm_num, by norm_num, ?_⟩
  have := scaleToFitDims_correct 640 360 100 56 (by norm_num) (by norm_num)
    (by norm_num) (by norm_num)
  exact_mod_cast this

/-- C7: for every non-degenerate bitmap and positive target box, the
fitted dimensions touch the box: output width = maxW or output
height = maxH. -/
theorem scaleToFitDims_touches_bound (w h maxW maxH : Int)
    (hw : 0 < w) (hh : 0 < h) (hmw : 0 < maxW) (hmh : 0 < maxH) :
    (scaleToFitDims w h maxW maxH).1 = maxW ∨
    (scaleToFitDims w h maxW maxH).2 = maxH := by
  have hwq : (0 : ℚ) < (w : ℚ) := by exact_mod_cast hw
  have hhq : (0 : ℚ) < (h : ℚ) := by exact_mod_cast hh
  rcases le_total ((maxW : ℚ) / (w : ℚ)) ((maxH : ℚ) / (h : ℚ)) with hle | hle
  · left
    rw [scaleToFitDims_fst_eq w h maxW maxH hw hh hmw hmh, min_eq_left hle]
    have hcan : (w : ℚ) * ((maxW : ℚ) / (w : ℚ)) = ((maxW : ℤ) : ℚ) := by
      field_simp
    rw [hcan, goRound_intCast]
    rw [if_neg (by omega)]
  · right
    rw [scaleToFitDims_snd_eq w h maxW maxH hw hh hmw hmh, min_eq_right hle]
    have hcan : (h : ℚ) * ((maxH : ℚ) / (h : ℚ)) = ((maxH : ℤ) : ℚ) := by
      field_simp
    rw [hcan, goRound_intCast]
    rw [if_neg (by omega)]

/-- C7 witness: the theorem applied to a 1920×1080 frame and a 320×180
box. -/
theorem scaleToFitDims_touches_bound_witness :
    (0 : Int) < 1920 ∧ (0 : Int) < 1080 ∧ (0 : Int) < 320 ∧ (0 : Int) < 180 ∧
    ((scaleToFitDims 1920 1080 320 180).1 = 320 ∨
     (scaleToFitDims 1920 1080 320 180).2 = 180) :=
  ⟨by norm_num, by norm_num, by norm_num, by norm_num,
   scaleToFitDims_touches_bound 1920 1080 320 180 (by norm_num) (by norm_num)
     (by norm_num) (by norm_num)⟩

/- ## Claim about `composeGrid` (C2) -/

theorem placeFrame_width {α : Type} (over : α → α → α)
    (cols cw ch m : Int) (canvas : Canvas α) (p : ℕ × Option (Frame α)) :
    (placeFrame over cols cw ch m canvas p).width = canvas.width := by
  rcases p with ⟨i, _ | f⟩ <;> rfl

theorem placeFrame_height {α : Type} (over : α → α → α)
    (cols cw ch m : Int) (canvas : Canvas α) (p : ℕ × Option (Frame α)) :
    (placeFrame over cols cw ch m canvas p).height = canvas.height := by
  rcases p with ⟨i, _ | f⟩ <;> rfl

theorem foldl_placeFrame_width {α : Type} (over : α → α → α)
    (cols cw ch m : Int) (l : List (ℕ × Option (Frame α))) (canvas : Canvas α) :
    (l.foldl (placeFrame over cols cw ch m) canvas).width = canvas.width := by
  induction l generalizing canvas with
  | nil => rfl
  | cons p t ih => rw [List.foldl_cons, ih, placeFrame_width]

theorem foldl_placeFrame_height {α : Type} (over : α → α → α)
    (cols cw ch m : Int) (l : List (ℕ × Option (Frame α))) (canvas : Canvas α) :
    (l.foldl (placeFrame over cols cw ch m) canvas).height = canvas.height := by
  induction l generalizing canvas with
  | nil => rfl
  | cons p t ih => rw [List.foldl_cons, ih, placeFrame_height]

theorem placeFrame_pix_uncovered {α : Type} (over : α → α → α)
    (cols cw ch m : Int) (canvas : Canvas α) (i : ℕ) (fo : Option (Frame α))
    (x y : Int)
    (h : ∀ f, fo = some f → ¬ coversPixel cols cw ch m i f x y) :
    (placeFrame over cols cw ch m canvas (i, fo)).pix x y = canvas.pix x y := by
  rcases fo with _ | f
  · rfl
  · have hnc := h f rfl
    simp only [placeFrame, drawOver]
    rw [if_neg]
    intro hcond
    exact hnc ⟨hcond.1, hcond.2.1, hcond.2.2.1, hcond.2.2.2.1⟩

theorem placeFrame_pix_covered {α : Type} (over : α → α → α)
    (cols cw ch m : Int) (canvas : Canvas α) (i : ℕ) (f : Frame α) (x y : Int)
    (hcov : coversPixel cols cw ch m i f x y)
    (hx0 : 0 ≤ x) (hx1 : x < canvas.width)
    (hy0 : 0 ≤ y) (hy1 : y < canvas.height) :
    (placeFrame over cols cw ch m canvas (i, some f)).pix x y =
      over (f.pix (x - frameOffsetX cols cw m i f.w)
        (y - frameOffsetY cols ch m i f.h)) (canvas.pix x y) := by
  obtain ⟨h1, h2, h3, h4⟩ := hcov
  simp only [placeFrame, drawOver]
  rw [if_pos ⟨h1, h2, h3, h4, hx0, hx1, hy0, hy1⟩]

theorem foldl_pix_uncovered {α : Type} (over : α → α → α) (cols cw ch m : Int)
    (l : List (ℕ × Option (Frame α))) (canvas : Canvas α) (x y : Int)
    (h : ∀ i f, (i, some f) ∈ l → ¬ coversPixel cols cw ch m i f x y) :
    (l.foldl (placeFrame over cols cw ch m) canvas).pix x y = canvas.pix x y := by
  induction l generalizing canvas with
  | nil => rfl
  | cons p t ih =>
    rcases p with ⟨i, fo⟩
    rw [List.foldl_cons,
      ih (placeFrame over cols cw ch m canvas (i, fo))
        (fun j g hmem => h j g (List.mem_cons_of_mem _ hmem))]
    exact placeFrame_pix_uncovered over cols cw ch m canvas i fo x y
      (fun f hf => h i f (by subst hf; exact List.mem_cons_self _ _))

theorem foldl_pix_covered {α : Type} (over : α → α → α) (cols cw ch m : Int)
    (l : List (ℕ × Option (Frame α))) (canvas : Canvas α) (x y : Int)
    (i : ℕ) (f : Frame α)
    (hnd : (l.map Prod.fst).Nodup)
    (hmem : (i, some f) ∈ l)
    (hcov : coversPixel cols cw ch m i f x y)
    (hothers : ∀ j g, (j, some g) ∈ l → j ≠ i →
      ¬ coversPixel cols cw ch m j g x y)
    (hx0 : 0 ≤ x) (hx1 : x < canvas.width)
    (hy0 : 0 ≤ y) (hy1 : y < canvas.height) :
    (l.foldl (placeFrame over cols cw ch m) canvas).pix x y =
      over (f.pix (x - frameOffsetX cols cw m i f.w)
        (y - frameOffsetY cols ch m i f.h)) (canvas.pix x y) := by
  obtain ⟨l1, l2, rfl⟩ := List.append_of_mem hmem
  have hnd' : ((i : ℕ) :: (l1.map Prod.fst ++ l2.map Prod.fst)).Nodup := by
    rw [List.map_append, List.map_cons] at hnd
    exact List.nodup_middle.mp hnd
  have hfst : i ∉ l1.map Prod.fst ++ l2.map Prod.fst :=
    (List.nodup_cons.mp hnd').1
  have hU1 : ∀ j g, (j, some g) ∈ l1 → ¬ coversPixel cols cw ch m j g x y := by
    intro j g hg
    have hji : j ≠ i := by
      rintro rfl
      exact hfst (List.mem_append_left _ (List.mem_map.mpr ⟨(j, some g), hg, rfl⟩))
    exact hothers j g (List.mem_append_left _ hg) hji
  have hU2 : ∀ j g, (j, some g) ∈ l2 → ¬ coversPixel cols cw ch m j g x y := by
    intro j g hg
    have hji : j ≠ i := by
      rintro rfl
      exact hfst (List.mem_append_right _ (List.mem_map.mpr ⟨(j, some g), hg, rfl⟩))
    exact hothers j g (by
      refine List.mem_append_right _ ?_
      exact List.mem_cons_of_mem _ hg) hji
  have hW1 : (l1.foldl (placeFrame over cols cw ch m) canvas).width = canvas.width :=
    foldl_placeFrame_width over cols cw ch m l1 canvas
  have hH1 : (l1.foldl (placeFrame over cols cw ch m) canvas).height = canvas.height :=
    foldl_placeFrame_height over cols cw ch m l1 canvas
  have hpix1 : (l1.foldl (placeFrame over cols cw ch m) canvas).pix x y =
      canvas.pix x y :=
    foldl_pix_uncovered over cols cw ch m l1 canvas x y hU1
  rw [List.foldl_append, List.foldl_cons,
    foldl_pix_uncovered over cols cw ch m l2 _ x y hU2,
    placeFrame_pix_covered over cols cw ch m _ i f x y hcov hx0
      (hW1.symm ▸ hx1) hy0 (hH1.symm ▸ hy1), hpix1]

theorem cell_index_eq (cw m a b x : Int) (hm : 0 ≤ m) (hcw : 0 ≤ cw)
    (ha1 : m + a * (cw + m) ≤ x) (ha2 : x < m + a * (cw + m) + cw)
    (hb1 : m + b * (cw + m) ≤ x) (hb2 : x < m + b * (cw + m) + cw) :
    a = b := by
  by_contra hne
  rcases lt_or_gt_of_ne hne with hlt | hlt
  · have h1 : a ≤ b - 1 := by omega
    have h2 : a * (cw + m) ≤ (b - 1) * (cw + m) :=
      mul_le_mul_of_nonneg_right h1 (by omega)
    have h3 : (b - 1) * (cw + m) = b * (cw + m) - cw - m := by ring
    linarith
  · have h1 : b ≤ a - 1 := by omega
    have h2 : b * (cw + m) ≤ (a - 1) * (cw + m) :=
      mul_le_mul_of_nonneg_right h1 (by omega)
    have h3 : (a - 1) * (cw + m) = a * (cw + m) - cw - m := by ring
    linarith

/-- A pixel covered by the frame at index `i` lies inside the x-range of
cell column `i % cols` and the y-range of cell row `i / cols`
(Euclidean `%` and `/`, which agree with Go's operators on these
non-negative operands). -/
theorem coversPixel_in_cell {α : Type} (cols cw ch m : Int)
    (hcols : 0 < cols) (i : ℕ) (f : Frame α) (x y : Int)
    (hfw : f.w ≤ cw) (hfh : f.h ≤ ch)
    (hcov : coversPixel cols cw ch m i f x y) :
    (m + ((i : Int) % cols) * (cw + m) ≤ x ∧
     x < m + ((i : Int) % cols) * (cw + m) + cw) ∧
    (m + ((i : Int) / cols) * (ch + m) ≤ y ∧
     y < m + ((i : Int) / cols) * (ch + m) + ch) := by
  obtain ⟨hx1, hx2, hy1, hy2⟩ := hcov
  rw [frameOffsetX] at hx1 hx2
  rw [frameOffsetY] at hy1 hy2
  rw [Int.tmod_eq_emod (Int.natCast_nonneg i) (le_of_lt hcols)] at hx1 hx2
  rw [Int.tdiv_eq_ediv (Int.natCast_nonneg i) (le_of_lt hcols)] at hy1 hy2
  rw [Int.tdiv_eq_ediv (by omega) (by norm_num)] at hx1 hx2
  rw [Int.tdiv_eq_ediv (by omega) (by norm_num)] at hy1 hy2
  have hhx0 : 0 ≤ (cw - f.w) / 2 := Int.ediv_nonneg (by omega) (by norm_num)
  have hhx1 : (cw - f.w) / 2 ≤ cw - f.w := by omega
  have hhy0 : 0 ≤ (ch - f.h) / 2 := Int.ediv_nonneg (by omega) (by norm_num)
  have hhy1 : (ch - f.h) / 2 ≤ ch - f.h := by omega
  exact ⟨⟨by linarith, by linarith⟩, ⟨by linarith, by linarith⟩⟩

/-- Distinct indices draw into disjoint rectangles: if the rectangles of
indices `i` and `j` share the pixel `(x, y)`, then `i = j`. -/
theorem coversPixel_index_eq {α : Type} (cols cw ch m : Int)
    (hcols : 0 < cols) (hm : 0 ≤ m) (hcw : 0 ≤ cw)
    (i j : ℕ) (f g : Frame α) (x y : Int)
    (hfw : f.w ≤ cw) (hfh : f.h ≤ ch) (hgw : g.w ≤ cw) (hgh : g.h ≤ ch)
    (hf : coversPixel cols cw ch m i f x y)
    (hg : coversPixel cols cw ch m j g x y) : i = j := by
  have hchpos : 0 ≤ ch := by
    obtain ⟨_, _, hy1, hy2⟩ := hf
    omega
  obtain ⟨⟨hxi1, hxi2⟩, ⟨hyi1, hyi2⟩⟩ :=
    coversPixel_in_cell cols cw ch m hcols i f x y hfw hfh hf
  obtain ⟨⟨hxj1, hxj2⟩, ⟨hyj1, hyj2⟩⟩ :=
    coversPixel_in_cell cols cw ch m hcols j g x y hgw hgh hg
  have hcol : (i : Int) % cols = (j : Int) % cols :=
    cell_index_eq cw m _ _ x hm hcw hxi1 hxi2 hxj1 hxj2
  have hrow : (i : Int) / cols = (j : Int) / cols :=
    cell_index_eq ch m _ _ y hm hchpos hyi1 hyi2 hyj1 hyj2
  have hij : (i : Int) = (j : Int) := by
    rw [← Int.ediv_add_emod (i : Int) cols, ← Int.ediv_add_emod (j : Int) cols,
      hcol, hrow]
  exact_mod_cast hij

/-- A pixel covered by the frame at a valid index `i < rows*cols` lies
inside the canvas. -/
theorem coversPixel_in_canvas {α : Type} (rows cols cw ch m : Int)
    (hcols : 0 < cols) (hm : 0 ≤ m)
    (i : ℕ) (f : Frame α) (x y : Int)
    (hi : (i : Int) < rows * cols)
    (hfw : f.w ≤ cw) (hfh : f.h ≤ ch)
    (hcov : coversPixel cols cw ch m i f x y) :
    0 ≤ x ∧ x < cols * cw + (cols + 1) * m ∧
    0 ≤ y ∧ y < rows * ch + (rows + 1) * m := by
  have hcwpos : 0 ≤ cw := by
    obtain ⟨hx1, hx2, _, _⟩ := hcov
    omega
  have hchpos : 0 ≤ ch := by
    obtain ⟨_, _, hy1, hy2⟩ := hcov
    omega
  obtain ⟨⟨hx1, hx2⟩, ⟨hy1, hy2⟩⟩ :=
    coversPixel_in_cell cols cw ch m hcols i f x y hfw hfh hcov
  have hcol0 : 0 ≤ (i : Int) % cols := Int.emod_nonneg _ (ne_of_gt hcols)
  have hcol1 : (i : Int) % cols < cols := Int.emod_lt_of_pos _ hcols
  have hrow0 : 0 ≤ (i : Int) / cols :=
    Int.ediv_nonneg (Int.natCast_nonneg i) (le_of_lt hcols)
  have hrow1 : (i : Int) / cols < rows := by
    rw [Int.ediv_lt_iff_lt_mul hcols]
    exact hi
  have hcne : 0 ≤ ((i : Int) % cols) * (cw + m) :=
    mul_nonneg hcol0 (by omega)
  have hrne : 0 ≤ ((i : Int) / cols) * (ch + m) :=
    mul_nonneg hrow0 (by omega)
  have hcle : ((i : Int) % cols) * (cw + m) ≤ (cols - 1) * (cw + m) :=
    mul_le_mul_of_nonneg_right (by omega) (by omega)
  have hrle : ((i : Int) / cols) * (ch + m) ≤ (rows - 1) * (ch + m) :=
    mul_le_mul_of_nonneg_right (by omega) (by omega)
  have hce : (cols - 1) * (cw + m) = cols * cw + cols * m - cw - m := by ring
  have hre : (rows - 1) * (ch + m) = rows * ch + rows * m - ch - m := by ring
  have hce2 : (cols + 1) * m = cols * m + m := by ring
  have hre2 : (rows + 1) * m = rows * m + m := by ring
  exact ⟨by linarith, by linarith, by linarith, by linarith⟩

/-- C2: for every grid with rows, cols, cellWidth > 0, cellHeight ≥ 0,
margin ≥ 0 and every sequence of rows*cols frame entries, each null or a
bitmap no larger than cellWidth × cellHeight, `composeGrid` produces a
canvas of exactly cols*cellWidth + (cols+1)*margin by
rows*cellHeight + (rows+1)*margin pixels; every pixel not covered by a
placed frame equals the background; every non-null frame at linear
index i is over-composited onto the background with top-left corner at
(margin + (i % cols)*(cellWidth+margin) + (cellWidth - frameWidth)/2,
 margin + (i / cols)*(cellHeight+margin) + (cellHeight - frameHeight)/2)
using truncating integer division; null entries are silently skipped,
leaving their cells background. -/
theorem composeGrid_correct {α : Type} (over : α → α → α)
    (frames : List (Option (Frame α)))
    (rows cols cellWidth cellHeight margin : Int) (background : α)
    (hrows : 0 < rows) (hcols : 0 < cols) (hcw : 0 < cellWidth)
    (hch : 0 ≤ cellHeight) (hm : 0 ≤ margin)
    (hlen : frames.length = (rows * cols).toNat)
    (hfit : ∀ f : Frame α, some f ∈ frames →
      f.w ≤ cellWidth ∧ f.h ≤ cellHeight) :
    (composeGrid over frames rows cols cellWidth cellHeight margin background).width =
      cols * cellWidth + (cols + 1) * margin ∧
    (composeGrid over frames rows cols cellWidth cellHeight margin background).height =
      rows * cellHeight + (rows + 1) * margin ∧
    (∀ x y : Int,
      (∀ (i : ℕ) (f : Frame α) (hi : i < frames.length), frames[i] = some f →
        ¬ coversPixel cols cellWidth cellHeight margin i f x y) →
      (composeGrid over frames rows cols cellWidth cellHeight margin background).pix x y
        = background) ∧
    (∀ (i : ℕ) (hi : i < frames.length) (f : Frame α), frames[i] = some f →
      ∀ x y : Int, coversPixel cols cellWidth cellHeight margin i f x y →
      (composeGrid over frames rows cols cellWidth cellHeight margin background).pix x y
        = over (f.pix (x - frameOffsetX cols cellWidth margin i f.w)
            (y - frameOffsetY cols cellHeight margin i f.h)) background) := by
  refine ⟨?_, ?_, ?_, ?_⟩
  · simp only [composeGrid]
    rw [foldl_placeFrame_width]
  · simp only [composeGrid]
    rw [foldl_placeFrame_height]
  · intro x y hunc
    have hun : ∀ i f, (i, some f) ∈ frames.enum →
        ¬ coversPixel cols cellWidth cellHeight margin i f x y := by
      intro i f hmem
      rw [List.mem_enum_iff_getElem?] at hmem
      have hi : i < frames.length := by
        by_contra hge
        rw [List.getElem?_eq_none (by omega)] at hmem
        cases hmem
      have hv : frames[i] = some f := by
        rw [List.getElem?_eq_getElem hi] at hmem
        exact Option.some_injective _ hmem
      exact hunc i f hi hv
    simp only [composeGrid]
    exact foldl_pix_uncovered over cols cellWidth cellHeight margin
      frames.enum _ x y hun
  · intro i hi f hv x y hcov
    have hmem : (i, some f) ∈ frames.enum := by
      rw [List.mem_enum_iff_getElem?]
      show frames[i]? = some (some f)
      rw [List.getElem?_eq_getElem hi, hv]
    have hnd := List.nodup_enum_map_fst frames
    have hfmem : some f ∈ frames := hv ▸ List.getElem_mem hi
    have hf := hfit f hfmem
    have hiz : (i : Int) < rows * cols := by
      rw [hlen] at hi
      omega
    have hb := coversPixel_in_canvas rows cols cellWidth cellHeight margin
      hcols hm i f x y hiz hf.1 hf.2 hcov
    have hoth : ∀ j g, (j, some g) ∈ frames.enum → j ≠ i →
        ¬ coversPixel cols cellWidth cellHeight margin j g x y := by
      intro j g hjm hne hcovj
      have hgmem : some g ∈ frames := by
        rw [List.mem_enum_iff_getElem?] at hjm
        exact List.getElem?_mem hjm
      have hg := hfit g hgmem
      exact hne (coversPixel_index_eq cols cellWidth cellHeight margin hcols hm
        (le_of_lt hcw) j i g f x y hg.1 hg.2 hf.1 hf.2 hcovj hcov)
    simp only [composeGrid]
    exact foldl_pix_covered over cols cellWidth cellHeight margin frames.enum
      _ x y i f hnd hmem hcov hoth hb.1 hb.2.1 hb.2.2.1 hb.2.2.2

/-- C2 witness: the theorem applied to a 1×2 grid with cell 2×1, margin
1, one 1×1 frame and one null entry, over ℕ pixels with an arbitrary
blend operation. -/
theorem composeGrid_correct_witness :
    (0 < (1 : Int)) ∧ (0 < (2 : Int)) ∧ (0 < (2 : Int)) ∧
    ((0 : Int) ≤ 1) ∧ ((0 : Int) ≤ 1) ∧
    ([some (⟨1, 1, fun _ _ => 5⟩ : Frame ℕ), none].length =
      ((1 : Int) * 2).toNat) ∧
    (∀ f : Frame ℕ, some f ∈ [some (⟨1, 1, fun _ _ => 5⟩ : Frame ℕ), none] →
      f.w ≤ 2 ∧ f.h ≤ 1) ∧
    ((composeGrid (fun a b : ℕ => a + 2 * b)
        [some (⟨1, 1, fun _ _ => 5⟩ : Frame ℕ), none] 1 2 2 1 1 7).width =
      2 * 2 + (2 + 1) * 1 ∧
     (composeGrid (fun a b : ℕ => a + 2 * b)
        [some (⟨1, 1, fun _ _ => 5⟩ : Frame ℕ), none] 1 2 2 1 1 7).height =
      1 * 1 + (1 + 1) * 1 ∧
     (∀ x y : Int,
       (∀ (i : ℕ) (f : Frame ℕ)
          (hi : i < [some (⟨1, 1, fun _ _ => 5⟩ : Frame ℕ), none].length),
          [some (⟨1, 1, fun _ _ => 5⟩ : Frame ℕ), none][i] = some f →
          ¬ coversPixel 2 2 1 1 i f x y) →
       (composeGrid (fun a b : ℕ => a + 2 * b)
          [some (⟨1, 1, fun _ _ => 5⟩ : Frame ℕ), none] 1 2 2 1 1 7).pix x y = 7) ∧
     (∀ (i : ℕ) (hi : i < [some (⟨1, 1, fun _ _ => 5⟩ : Frame ℕ), none].length)
        (f : Frame ℕ),
        [some (⟨1, 1, fun _ _ => 5⟩ : Frame ℕ), none][i] = some f →
        ∀ x y : Int, coversPixel 2 2 1 1 i f x y →
        (composeGrid (fun a b : ℕ => a + 2 * b)
          [some (⟨1, 1, fun _ _ => 5⟩ : Frame ℕ), none] 1 2 2 1 1 7).pix x y =
          (fun a b : ℕ => a + 2 * b)
            (f.pix (x - frameOffsetX 2 2 1 i f.w)
              (y - frameOffsetY 2 1 1 i f.h)) 7)) := by
  have hfit : ∀ f : Frame ℕ,
      some f ∈ [some (⟨1, 1, fun _ _ => 5⟩ : Frame ℕ), none] →
      f.w ≤ 2 ∧ f.h ≤ 1 := by
    intro f hf
    rcases List.mem_cons.mp hf with h | h
    · obtain rfl : f = ⟨1, 1, fun _ _ => 5⟩ := Option.some_injective _ h
      exact ⟨by norm_num, by norm_num⟩
    · rcases List.mem_cons.mp h with h2 | h2
      · exact Option.noConfusion h2
      · cases h2
  exact ⟨by norm_num, by norm_num, by norm_num, by norm_num, by norm_num,
    by decide, hfit,
    composeGrid_correct (fun a b : ℕ => a + 2 * b)
      [some (⟨1, 1, fun _ _ => 5⟩ : Frame ℕ), none] 1 2 2 1 1 7
      (by norm_num) (by norm_num) (by norm_num) (by norm_num) (by norm_num)
      (by decide) hfit⟩

end VideoPreview
